/-
  Verification of the SimpleRSSAggregator feed engine (src/structs.rs, src/main.rs).

  The Rust code is shallowly embedded: structs become Lean structures, `Vec<T>`
  becomes `List T`, `Option<T>` becomes `Option T`, `i32`/`i64` become `Int`
  with explicit wrapping where a cast matters, and `HashMap` becomes an
  association list (its iteration order is modelled as list order).
  Rust string primitives (`replace`, `split`, `contains`, `trim`, the regex
  `<[^>]*>` strip) are implemented over `List Char` with structural recursion
  so that concrete instances evaluate inside the kernel.  The chrono date
  functions are modelled at exactly the two fixed format strings the code
  uses.  `Vec::sort_by` (a stable sort by a comparator) is modelled by
  `List.insertionSort`, which is stable and sorts by the same relation; for a
  total preorder a stable sort is determined uniquely, so the two agree.
-/
import Mathlib

set_option maxRecDepth 20000

/-! ### String helpers modelling Rust `str` operations -/

/-- Model of Rust `str::replace` (non-overlapping, left to right).  The fuel
argument is the length of the scanned list, which bounds the recursion. -/
def replaceList (pat rep : List Char) : Nat → List Char → List Char
  | _, [] => []
  | 0, l => l
  | fuel + 1, c :: cs =>
    if pat ≠ [] ∧ pat.isPrefixOf (c :: cs) then
      rep ++ replaceList pat rep fuel ((c :: cs).drop pat.length)
    else
      c :: replaceList pat rep fuel cs

def strReplace (s pat rep : String) : String :=
  ⟨replaceList pat.data rep.data s.data.length s.data⟩

/-- Model of Rust `str::split` at a literal pattern: splits at every
non-overlapping occurrence, keeping empty fragments. -/
def splitList (pat : List Char) : Nat → List Char → List Char → List (List Char)
  | _, [], acc => [acc.reverse]
  | 0, l, acc => [acc.reverse ++ l]
  | fuel + 1, c :: cs, acc =>
    if pat ≠ [] ∧ pat.isPrefixOf (c :: cs) then
      acc.reverse :: splitList pat fuel ((c :: cs).drop pat.length) []
    else
      splitList pat fuel cs (c :: acc)

def strSplitOn (s pat : String) : List String :=
  (splitList pat.data s.data.length s.data []).map (fun l => ⟨l⟩)

/-- Model of Rust `str::contains` for a literal pattern. -/
def containsList (pat : List Char) : List Char → Bool
  | [] => pat.isEmpty
  | c :: cs => pat.isPrefixOf (c :: cs) || containsList pat cs

def strContains (s pat : String) : Bool :=
  containsList pat.data s.data

/-- Model of Rust `str::starts_with`. -/
def strStartsWith (s pat : String) : Bool :=
  pat.data.isPrefixOf s.data

/-- Model of the global replacement of the regex `<[^>]*>` by the empty
string: at each `<`, the leftmost match extends to the first following `>`;
a `<` with no later `>` stays literal. -/
def stripTagsList : Nat → List Char → List Char
  | _, [] => []
  | 0, l => l
  | fuel + 1, c :: cs =>
    if c == '<' then
      match cs.dropWhile (fun d => d != '>') with
      | [] => c :: stripTagsList fuel cs
      | _ :: rest => stripTagsList fuel rest
    else
      c :: stripTagsList fuel cs

def stripTags (s : String) : String :=
  ⟨stripTagsList s.data.length s.data⟩

def isWsChar (c : Char) : Bool :=
  c == ' ' || c == '\t' || c == '\n' || c == '\r'

/-- Model of Rust `str::trim` (the inputs in scope are ASCII). -/
def strTrim (s : String) : String :=
  ⟨((s.data.dropWhile isWsChar).reverse.dropWhile isWsChar).reverse⟩

/-- Model of `Vec::<String>::join(sep)`. -/
def strIntercalate (sep : String) : List String → String
  | [] => ""
  | [s] => s
  | s :: rest => s ++ sep ++ strIntercalate sep rest

/-- Model of Rust `str::split_whitespace` (no empty fragments).  This is used
only for the specification-worded variant of the title derivation. -/
def wsSplitList : List Char → List Char → List (List Char)
  | [], cur => if cur.isEmpty then [] else [cur.reverse]
  | c :: cs, cur =>
    if isWsChar c then
      if cur.isEmpty then wsSplitList cs [] else cur.reverse :: wsSplitList cs []
    else
      wsSplitList cs (c :: cur)

def strSplitWhitespace (s : String) : List String :=
  (wsSplitList s.data []).map (fun l => ⟨l⟩)

/-! ### Calendar arithmetic and the two chrono formats used by the code -/

def digitsToNatAux : List Char → Nat → Option Nat
  | [], acc => some acc
  | c :: cs, acc =>
    if c.isDigit then digitsToNatAux cs (acc * 10 + (c.toNat - 48)) else none

/-- Parse a fixed-width run of decimal digits. -/
def parseDigits (len : Nat) (s : String) : Option Nat :=
  if s.data.length = len then digitsToNatAux s.data 0 else none

def isLeapYear (y : Int) : Bool :=
  (Int.emod y 4 == 0 && Int.emod y 100 != 0) || Int.emod y 400 == 0

def daysInMonth (y : Int) (m : Nat) : Nat :=
  if m = 2 then (if isLeapYear y then 29 else 28)
  else if m = 4 ∨ m = 6 ∨ m = 9 ∨ m = 11 then 30
  else 31

/-- Days from 1970-01-01 of a civil date (standard era-based computation). -/
def daysFromCivil (y : Int) (m d : Nat) : Int :=
  let yAdj : Int := if m ≤ 2 then y - 1 else y
  let era : Int := Int.fdiv yAdj 400
  let yoe : Nat := (yAdj - era * 400).toNat
  let mp : Nat := if m > 2 then m - 3 else m + 9
  let doy : Nat := (153 * mp + 2) / 5 + d - 1
  let doe : Nat := yoe * 365 + yoe / 4 - yoe / 100 + doy
  era * 146097 + (doe : Int) - 719468

/-- Inverse of `daysFromCivil`: the civil date of an epoch day count. -/
def civilFromDays (z : Int) : Int × Nat × Nat :=
  let z2 : Int := z + 719468
  let era : Int := Int.fdiv z2 146097
  let doe : Nat := (z2 - era * 146097).toNat
  let yoe : Nat := (doe - doe / 1460 + doe / 36524 - doe / 146096) / 365
  let doy : Nat := doe - (365 * yoe + yoe / 4 - yoe / 100)
  let mp : Nat := (5 * doy + 2) / 153
  let d : Nat := doy - (153 * mp + 2) / 5 + 1
  let m : Nat := if mp < 10 then mp + 3 else mp - 9
  ((yoe : Int) + era * 400 + (if m ≤ 2 then 1 else 0), m, d)

/-- Weekday of an epoch day count, 0 = Sunday (1970-01-01 is a Thursday). -/
def weekdayOfDays (z : Int) : Nat :=
  (Int.emod (z + 4) 7).toNat

def weekdayNames : List String := ["Sun", "Mon", "Tue", "Wed", "Thu", "Fri", "Sat"]

def monthNames : List String :=
  ["Jan", "Feb", "Mar", "Apr", "May", "Jun", "Jul", "Aug", "Sep", "Oct", "Nov", "Dec"]

def indexIn (s : String) : List String → Option Nat
  | [] => none
  | t :: rest => if s == t then some 0 else (indexIn s rest).map (· + 1)

/-- Seconds within a day of an `HH:MM:SS` text. -/
def parseHMS (s : String) : Option Nat :=
  match strSplitOn s ":" with
  | [hs, ms, ss] => do
    let h ← parseDigits 2 hs
    let m ← parseDigits 2 ms
    let sec ← parseDigits 2 ss
    if h < 24 ∧ m < 60 ∧ sec < 60 then some (h * 3600 + m * 60 + sec) else none
  | _ => none

/-- Offset in seconds of a `+HHMM` / `-HHMM` timezone text (chrono `%z`). -/
def parseTz (s : String) : Option Int :=
  match s.data with
  | [sg, h1, h2, m1, m2] =>
    if (sg == '+' || sg == '-') && h1.isDigit && h2.isDigit && m1.isDigit && m2.isDigit then
      let hh : Nat := (h1.toNat - 48) * 10 + (h2.toNat - 48)
      let mm : Nat := (m1.toNat - 48) * 10 + (m2.toNat - 48)
      if mm < 60 then
        let off : Int := (hh : Int) * 3600 + (mm : Int) * 60
        some (if sg == '-' then -off else off)
      else none
    else none
  | _ => none

/-- Epoch day count of a valid civil date, `none` when out of range. -/
def civilToEpochDay (y : Int) (m d : Nat) : Option Int :=
  if 1 ≤ m ∧ m ≤ 12 ∧ 1 ≤ d ∧ d ≤ daysInMonth y m then
    some (daysFromCivil y m d)
  else none

/-- Model of `chrono::NaiveDateTime::parse_from_str` at the fixed format
string `"%a, %d %h %Y %H:%M:%S %z"` (e.g. `Thu, 01 Jan 1970 00:01:40 +0000`);
the weekday name must agree with the date, as chrono checks consistency. -/
def parseItemDateFmt (s : String) : Option Int :=
  match strSplitOn s " " with
  | [wdTok, dTok, monTok, yTok, hmsTok, tzTok] => do
    let wdName ←
      (match wdTok.data.reverse with
       | ',' :: rest => some (⟨rest.reverse⟩ : String)
       | _ => none)
    let wd ← indexIn wdName weekdayNames
    let d ← parseDigits 2 dTok
    let mon ← (indexIn monTok monthNames).map (· + 1)
    let y ← parseDigits 4 yTok
    let secs ← parseHMS hmsTok
    let off ← parseTz tzTok
    let days ← civilToEpochDay (y : Int) mon d
    if weekdayOfDays days = wd then
      some (days * 86400 + (secs : Int) - off)
    else none
  | _ => none

/-- Model of `chrono::NaiveDateTime::parse_from_str` at the fixed format
string `"%Y-%m-%dT%T%.3fZ"` (e.g. `2024-05-01T10:00:00.000Z`; the fractional
part is optional and dropped, as the code reads whole-second timestamps). -/
def parseIsoFmt (s : String) : Option Int :=
  match strSplitOn s "T" with
  | [dTok, tTok] => do
    let ymd ←
      (match strSplitOn dTok "-" with
       | [ys, ms, ds] => do
         let y ← parseDigits 4 ys
         let m ← parseDigits 2 ms
         let d ← parseDigits 2 ds
         some (y, m, d)
       | _ => none)
    let body ←
      (match tTok.data.reverse with
       | 'Z' :: rest => some (⟨rest.reverse⟩ : String)
       | _ => none)
    let secs ←
      (match strSplitOn body "." with
       | [hms] => parseHMS hms
       | [hms, frac] =>
         if frac.data.length = 3 ∧ frac.data.all Char.isDigit then parseHMS hms else none
       | _ => none)
    let days ← civilToEpochDay (ymd.1 : Int) ymd.2.1 ymd.2.2
    some (days * 86400 + (secs : Int))
  | _ => none

def pad2 (n : Nat) : String :=
  if n < 10 then "0" ++ toString n else toString n

def pad4 (n : Nat) : String :=
  if n < 10 then "000" ++ toString n
  else if n < 100 then "00" ++ toString n
  else if n < 1000 then "0" ++ toString n
  else toString n

/-- Model of chrono formatting with `"%a, %d %h %Y %H:%M:%S %z"` of the UTC
datetime `chrono::Utc.timestamp_opt(ts, 0)` (so `%z` prints `+0000`). -/
def formatItemDate (ts : Int) : String :=
  let days : Int := Int.fdiv ts 86400
  let secs : Nat := (ts - days * 86400).toNat
  match civilFromDays days with
  | (y, m, d) =>
    (weekdayNames.getD (weekdayOfDays days) "") ++ ", " ++ pad2 d ++ " " ++
      (monthNames.getD (m - 1) "") ++ " " ++
      (if y < 0 then "-" ++ toString (-y).toNat else pad4 y.toNat) ++ " " ++
      pad2 (secs / 3600) ++ ":" ++ pad2 (secs % 3600 / 60) ++ ":" ++ pad2 (secs % 60) ++
      " +0000"

/-- Dispatch of chrono parsing on the only two format strings the code uses. -/
def chronoParseFromStr (d fmt : String) : Option Int :=
  if fmt = "%a, %d %h %Y %H:%M:%S %z" then parseItemDateFmt d
  else if fmt = "%Y-%m-%dT%T%.3fZ" then parseIsoFmt d
  else none

/-- `get_timestamp_from_string` of structs.rs: parse an optional date text,
collapsing every failure to `none`. -/
def get_timestamp_from_string (string : Option String) (fmt_string : String) : Option Int :=
  (string.map (fun d => chronoParseFromStr d fmt_string)).getD none


/-! ### Data model (structs.rs) -/

structure Author where
  name : String
  uri : String
deriving DecidableEq

structure MediaContent where
  url : String
  description : Option String
  mime_type : String
  file_size : Option String
  medium : String
deriving DecidableEq

/-- `MediaContent::into_html` of structs.rs. -/
def MediaContent.into_html (c : MediaContent) : String :=
  let url := c.url
  let description := c.description.getD ""
  if strStartsWith c.mime_type "image" then
    "<img src=\"" ++ url ++ "\" alt=\"" ++ description ++ "\" />"
  else if strStartsWith c.mime_type "video" then
    "<video src=\"" ++ url ++ "\" type=\"" ++ c.mime_type ++ "\" controls>" ++
      description ++ "</video>"
  else
    description

structure Item where
  guid : String
  title : Option String
  plain_title : Option String
  imageurl : Option String
  link : Option String
  description : Option String
  author : Option Author
  pub_date : Option String
  create_date : Option String
  update_date : Option String
  media_content : Option (List MediaContent)
  content_encoded : Option String
deriving DecidableEq

/-- `Item::get_created_timestamp` of structs.rs. -/
def Item.get_created_timestamp (self : Item) : Option Int :=
  get_timestamp_from_string (self.create_date.map (fun d => strReplace d "GMT" "+0000"))
    "%a, %d %h %Y %H:%M:%S %z"

/-- `Item::get_updated_timestamp` of structs.rs. -/
def Item.get_updated_timestamp (self : Item) : Option Int :=
  get_timestamp_from_string (self.update_date.map (fun d => strReplace d "GMT" "+0000"))
    "%a, %d %h %Y %H:%M:%S %z"

/-- `Item::get_published_timestamp` of structs.rs. -/
def Item.get_published_timestamp (self : Item) : Option Int :=
  get_timestamp_from_string (self.pub_date.map (fun d => strReplace d "GMT" "+0000"))
    "%a, %d %h %Y %H:%M:%S %z"

/-- `Item::update` of structs.rs: overwrite the content fields with the new
item's values; `guid`, `link` and `author` are not assigned. -/
def Item.update (self : Item) (new_item : Item) : Item :=
  { self with
    title := new_item.title
    plain_title := new_item.plain_title
    description := new_item.description
    imageurl := new_item.imageurl
    content_encoded := new_item.content_encoded
    media_content := new_item.media_content
    update_date := new_item.update_date
    pub_date := new_item.pub_date
    create_date := new_item.create_date }

/-- One step of the inner loop of `update_list_by_guids`: the loop updates
every stored item whose guid equals the incoming guid, and appends the
incoming item when none matched. -/
def applyOne (item new_item : Item) : Item :=
  if new_item.guid == item.guid then item.update new_item else item

def updateOne (self : List Item) (new_item : Item) : List Item :=
  if self.any (fun item => new_item.guid == item.guid) then
    self.map (fun item => applyOne item new_item)
  else
    self ++ [new_item]

/-- `CombineItemLists::update_list_by_guids` of structs.rs (for `Vec<Item>`). -/
def update_list_by_guids (self : List Item) (new_items : List Item) : List Item :=
  new_items.foldl updateOne self

/-- The cumulative effect of the whole incoming list on one stored item:
every incoming item with the same guid overwrites it in turn. -/
def applyAll (new_items : List Item) (item : Item) : Item :=
  new_items.foldl applyOne item

structure Channel where
  title : String
  link : String
  item : List Item
deriving DecidableEq

structure Rss where
  channel : Channel
  version : Option String
  webfeeds : Option String
  media : Option String
  content : Option String
deriving DecidableEq

structure FeedOptions where
  rss : Rss
  manipulate_input : String
  retain_all_entries : Bool
  title : String
  link : String
deriving DecidableEq

/-- `Db` of structs.rs; the `HashMap<String, FeedOptions>` is modelled as an
association list whose order stands for the iteration order of the map. -/
structure Db where
  rss : List (String × FeedOptions)
  output_one_channel : Bool
  title : String
  link : String
  include_description_as_title_if_none_given : Bool
  description_title_word_count : Int
  title_ellipsis : String
  populate_content_encoded : Bool
  add_media_to_content_encoded : Bool
  max_entries_published : Int
  override_item_author : Bool
deriving DecidableEq

/-- `Db::new` of structs.rs. -/
def Db.new : Db :=
  { rss := []
    output_one_channel := true
    title := ""
    link := ""
    include_description_as_title_if_none_given := true
    description_title_word_count := 10
    title_ellipsis := "..."
    populate_content_encoded := true
    add_media_to_content_encoded := true
    max_entries_published := -1
    override_item_author := false }

/-! ### The per-item synthesis steps of `Db::output_rss` -/

/-- The Rust cast `i32 as usize` (two's-complement reinterpretation into a
64-bit unsigned size). -/
def usizeOfI32 (n : Int) : Nat :=
  (Int.emod n (2 ^ 64)).toNat

/-- Author fill (structs.rs lines 200-205). -/
def fillAuthor (db : Db) (feed_options : FeedOptions) (item : Item) : Item :=
  if item.author.isNone || db.override_item_author then
    { item with author := some ⟨feed_options.title, feed_options.link⟩ }
  else item

/-- The title derived from a description (structs.rs lines 207-216): strip
tags, unescape `&#39;`, split on the space character, and abbreviate. -/
def titleFromDescription (db : Db) (d : String) : String :=
  let d_text := strReplace (stripTags d) "&#39;" "\x27"
  let parts := strSplitOn d_text " "
  if parts.length > usizeOfI32 db.description_title_word_count then
    strTrim (strIntercalate " " (parts.take (usizeOfI32 db.description_title_word_count))) ++
      db.title_ellipsis
  else d_text

/-- Title fill (structs.rs lines 206-217). -/
def fillTitle (db : Db) (item : Item) : Item :=
  if item.title.isNone && db.include_description_as_title_if_none_given then
    { item with title := item.description.map (titleFromDescription db) }
  else item

/-- Rich-body fill (structs.rs lines 218-220). -/
def fillContentEncoded (db : Db) (item : Item) : Item :=
  if item.content_encoded.isNone && db.populate_content_encoded then
    { item with content_encoded := item.description }
  else item

/-- The joined HTML of the media assets whose url is not already a substring
of the rich body (structs.rs lines 223-231). -/
def mediaHtmlFor (content_encoded : String) (mc : Option (List MediaContent)) : String :=
  (mc.map (fun l =>
    strIntercalate " "
      ((l.filter (fun c => !(strContains content_encoded c.url))).map
        MediaContent.into_html))).getD ""

/-- Media injection (structs.rs lines 221-232). -/
def addMedia (db : Db) (item : Item) : Item :=
  match item.content_encoded with
  | some content_encoded =>
    if db.add_media_to_content_encoded then
      { item with
          content_encoded :=
            some (content_encoded ++ "<br>" ++ mediaHtmlFor content_encoded item.media_content) }
    else item
  | none => item

/-- The body of the per-item loop of `Db::output_rss`. -/
def processItem (db : Db) (feed_options : FeedOptions) (item : Item) : Item :=
  addMedia db (fillContentEncoded db (fillTitle db (fillAuthor db feed_options item)))

def flattenProcessedItems (db : Db) : List Item :=
  (db.rss.map (fun p => p.2.rss.channel.item.map (processItem db p.2))).flatten

/-! ### The sort of `Db::output_rss` (lines 236-246) -/

/-- The strict order `<` of Rust `Option<i64>`: `None` is below every
`Some`. -/
def optTimeLt : Option Int → Option Int → Bool
  | none, some _ => true
  | some a, some b => a < b
  | _, _ => false

/-- The comparator closure of `Db::output_rss`: an item with the later
published timestamp compares as `Less` (so it sorts first). -/
def pubCompare (a b : Item) : Ordering :=
  let atime := a.get_published_timestamp
  let btime := b.get_published_timestamp
  if optTimeLt btime atime then Ordering.lt
  else if optTimeLt atime btime then Ordering.gt
  else Ordering.eq

/-- The order a stable sort by `pubCompare` arranges: `a` may stay before `b`
precisely when the comparator does not say `Greater`. -/
def itemLe (a b : Item) : Prop :=
  pubCompare a b ≠ Ordering.gt

instance : DecidableRel itemLe := fun a b =>
  inferInstanceAs (Decidable (pubCompare a b ≠ Ordering.gt))

/-- `items.sort_by(comparator)`: Rust promises a stable sort by the
comparator; `insertionSort` by `itemLe` is stable and sorted by the same
total preorder, which determines the output uniquely. -/
def sortItems (items : List Item) : List Item :=
  items.insertionSort itemLe

/-- The truncation of `Db::output_rss` (lines 247-249).  The slice
`items[0..max]` panics when `max` exceeds the length; the panic is modelled
as `none`. -/
def truncateItems (db : Db) (items : List Item) : Option (List Item) :=
  if 0 < db.max_entries_published then
    if db.max_entries_published.toNat ≤ items.length then
      some (items.take db.max_entries_published.toNat)
    else none
  else some items

/-- `Db::output_rss` of structs.rs up to the final XML serialization: the
assembled `Rss` value handed to the serializer, or `none` when the
truncation slice panics. -/
def Db.output_rss (db : Db) : Option Rss :=
  (truncateItems db (sortItems (flattenProcessedItems db))).map (fun items =>
    { channel := { title := db.title, link := db.link, item := items }
      version := some "2.0"
      webfeeds := some "http://webfeeds.org/rss/1.0"
      media := some "http://search.yahoo.com/mrss/"
      content := some "http://purl.org/rss/1.0/modules/content/" })

/-! ### Schema B (structs.rs `Link`, `Entry`) -/

structure Link where
  rel : String
  href : String
deriving DecidableEq

structure Entry where
  id : String
  title : String
  author : Author
  updated : String
  content : String
  media_content : Option (List MediaContent)
  link : Link
  summary : String
deriving DecidableEq

/-- `Entry::get_updated_time_as_item_format` of structs.rs. -/
def Entry.get_updated_time_as_item_format (self : Entry) : Option String :=
  (get_timestamp_from_string (some self.updated) "%Y-%m-%dT%T%.3fZ").map
    (fun timestamp => formatItemDate timestamp)

/-- `Entry::into_item` of structs.rs. -/
def Entry.into_item (self : Entry) : Item :=
  let pub_date := self.get_updated_time_as_item_format
  { guid := self.id
    title := some self.title
    plain_title := some self.title
    imageurl := none
    link := some self.link.href
    description := some self.summary
    author := some self.author
    pub_date := pub_date
    create_date := none
    update_date := pub_date
    media_content := self.media_content
    content_encoded := some self.content }

/-! ### The per-source merge branch of main.rs (lines 187-204) -/

/-- The merge of a freshly parsed feed into an existing per-source state:
the stored items are reconciled by guid and the stored channel title and
link are overwritten; the outer `title`/`link` fields of `FeedOptions` are
not assigned. -/
def mergeFeedOptions (options : FeedOptions) (rss : Rss) : FeedOptions :=
  { options with rss :=
      { options.rss with channel :=
          { title := rss.channel.title
            link := rss.channel.link
            item := update_list_by_guids options.rss.channel.item rss.channel.item } } }

/-- The creation branch of main.rs (lines 196-204) for a source seen for the
first time. -/
def newFeedOptions (rss : Rss) : FeedOptions :=
  { rss := rss
    manipulate_input := ""
    retain_all_entries := true
    title := rss.channel.title
    link := rss.channel.link }

/-- Definition following the words of the specification for the title fill
(claim C7): like `titleFromDescription` but splitting on whitespace.  It is
declared only to be compared with the code's behaviour. -/
def titleFromDescriptionSpec (db : Db) (d : String) : String :=
  let d_text := strReplace (stripTags d) "&#39;" "\x27"
  let parts := strSplitWhitespace d_text
  if parts.length > usizeOfI32 db.description_title_word_count then
    strTrim (strIntercalate " " (parts.take (usizeOfI32 db.description_title_word_count))) ++
      db.title_ellipsis
  else d_text

/-! ### Concrete fixtures used by witnesses and counterexamples -/

/-- An item with every optional field empty. -/
def mkItem (g : String) : Item :=
  { guid := g, title := none, plain_title := none, imageurl := none, link := none,
    description := none, author := none, pub_date := none, create_date := none,
    update_date := none, media_content := none, content_encoded := none }

def exTimedA : Item := { mkItem "guid-a" with pub_date := some "Thu, 01 Jan 1970 00:01:40 +0000" }

def exMissing : Item := mkItem "guid-b"

def exTimedC : Item := { mkItem "guid-c" with pub_date := some "Thu, 01 Jan 1970 00:01:40 GMT" }

def exStored : Item :=
  { mkItem "shared-guid" with
    title := some "old title"
    link := some "old-link"
    author := some ⟨"old-author", "old-uri"⟩
    description := some "old body" }

def exIncoming : Item :=
  { mkItem "shared-guid" with
    title := some "new title"
    plain_title := some "new plain"
    link := some "new-link"
    author := some ⟨"new-author", "new-uri"⟩
    description := some "new body"
    content_encoded := some "new rich"
    pub_date := some "p"
    create_date := some "c"
    update_date := some "u"
    media_content := some []
    imageurl := some "img" }

def exFresh : Item := { mkItem "fresh-guid" with title := some "fresh" }

def rssWith (items : List Item) : Rss :=
  { channel := { title := "CT", link := "CL", item := items }
    version := none
    webfeeds := none
    media := none
    content := none }

def foWith (items : List Item) : FeedOptions :=
  { rss := rssWith items
    manipulate_input := ""
    retain_all_entries := true
    title := "Source Title"
    link := "source-link" }

def plainItem (g : String) : Item := { mkItem g with author := some ⟨"a", "u"⟩ }

def exDbBase : Db :=
  { Db.new with
    include_description_as_title_if_none_given := false
    populate_content_encoded := false
    add_media_to_content_encoded := false
    max_entries_published := 2 }

def exDbFive : Db :=
  { exDbBase with rss :=
    [("url", foWith [plainItem "a", plainItem "b", plainItem "c", plainItem "d", plainItem "e"])] }

def exDbAll : Db := { exDbFive with max_entries_published := -1 }

def exDbOne : Db := { exDbBase with rss := [("url", foWith [plainItem "a"])] }

def exEntry : Entry :=
  { id := "entry-id"
    title := "entry title"
    author := ⟨"ename", "euri"⟩
    updated := "2024-05-01T10:00:00.000Z"
    content := "entry content"
    media_content := none
    link := { rel := "alternate", href := "entry-href" }
    summary := "entry summary" }

def exDbTab : Db := { Db.new with description_title_word_count := 2 }

def exDescTab : String := "<p>a\tb c d</p>"

def exItemTab : Item := { mkItem "tab" with description := some exDescTab }

def exDbHello : Db := { Db.new with description_title_word_count := 3 }

def exDescHello : String := "<p>Hello world, this is a test post about things</p>"

def exItemHello : Item := { mkItem "hello" with description := some exDescHello }

def exMediaImg : MediaContent :=
  { url := "http://x/i.png"
    description := some "pic"
    mime_type := "image/png"
    file_size := none
    medium := "image" }

def exMediaVid : MediaContent :=
  { url := "http://x/v.mp4"
    description := some "vid"
    mime_type := "video/mp4"
    file_size := none
    medium := "video" }

def exMediaDoc : MediaContent :=
  { url := "http://x/o.bin"
    description := some "doc"
    mime_type := "application/octet-stream"
    file_size := none
    medium := "other" }

def exItemMedia : Item :=
  { mkItem "media" with
    content_encoded := some "body http://x/i.png"
    media_content := some [exMediaImg, exMediaVid, exMediaDoc] }

def exOldOptions : FeedOptions :=
  { rss := rssWith []
    manipulate_input := ""
    retain_all_entries := true
    title := "Old Source Title"
    link := "old-source-link" }

def exNewRss : Rss :=
  { channel := { title := "New Channel Title", link := "new-channel-link", item := [] }
    version := some "2.0"
    webfeeds := none
    media := none
    content := none }

/-! ### Lemmas about `Item.update` and the merge fold -/

theorem Item.update_guid (a b : Item) : (a.update b).guid = a.guid := rfl

theorem Item.update_link (a b : Item) : (a.update b).link = a.link := rfl

theorem Item.update_author (a b : Item) : (a.update b).author = a.author := rfl

/-- `Item.update` reads only `guid`, `link` and `author` of its receiver. -/
theorem Item.update_congr {a a2 : Item} (b : Item)
    (hg : a.guid = a2.guid) (hl : a.link = a2.link) (ha : a.author = a2.author) :
    a.update b = a2.update b := by
  cases a; cases a2; cases b
  simp_all [Item.update]

/-- Overwriting an item that already agrees with the incoming item on the
preserved fields gives back the incoming item. -/
theorem Item.update_eq_self {a b : Item}
    (hg : a.guid = b.guid) (hl : a.link = b.link) (ha : a.author = b.author) :
    a.update b = b := by
  cases a; cases b
  simp_all [Item.update]

theorem applyOne_guid (it b : Item) : (applyOne it b).guid = it.guid := by
  unfold applyOne; split <;> rfl

theorem applyOne_link (it b : Item) : (applyOne it b).link = it.link := by
  unfold applyOne; split <;> rfl

theorem applyOne_author (it b : Item) : (applyOne it b).author = it.author := by
  unfold applyOne; split <;> rfl

theorem applyOne_of_ne {it b : Item} (h : b.guid ≠ it.guid) : applyOne it b = it := by
  simp [applyOne, h]

theorem applyOne_of_eq {it b : Item} (h : b.guid = it.guid) : applyOne it b = it.update b := by
  simp [applyOne, h]

theorem applyAll_cons (b : Item) (rest : List Item) (it : Item) :
    applyAll (b :: rest) it = applyAll rest (applyOne it b) := rfl

theorem applyAll_guid (ns : List Item) (it : Item) : (applyAll ns it).guid = it.guid := by
  induction ns generalizing it with
  | nil => rfl
  | cons b rest ih => rw [applyAll_cons, ih, applyOne_guid]

theorem applyAll_link (ns : List Item) (it : Item) : (applyAll ns it).link = it.link := by
  induction ns generalizing it with
  | nil => rfl
  | cons b rest ih => rw [applyAll_cons, ih, applyOne_link]

theorem applyAll_author (ns : List Item) (it : Item) : (applyAll ns it).author = it.author := by
  induction ns generalizing it with
  | nil => rfl
  | cons b rest ih => rw [applyAll_cons, ih, applyOne_author]

theorem applyAll_of_forall_ne {ns : List Item} {it : Item}
    (h : ∀ x ∈ ns, x.guid ≠ it.guid) : applyAll ns it = it := by
  induction ns with
  | nil => rfl
  | cons b rest ih =>
    rw [applyAll_cons, applyOne_of_ne (h b (List.mem_cons_self b rest))]
    exact ih (fun x hx => h x (List.mem_cons_of_mem b hx))

/-- When the incoming guids are pairwise distinct, the cumulative effect on
an item matching one incoming item `B` is a single overwrite by `B`. -/
theorem applyAll_eq_update : ∀ {ns : List Item}, (ns.map Item.guid).Nodup →
    ∀ {B it : Item}, B ∈ ns → it.guid = B.guid → applyAll ns it = it.update B := by
  intro ns
  induction ns with
  | nil => intro _ B it hB; cases hB
  | cons b rest ih =>
    intro hnd B it hB hg
    rw [List.map_cons, List.nodup_cons] at hnd
    rcases List.mem_cons.mp hB with hBb | hBr
    · subst hBb
      rw [applyAll_cons, applyOne_of_eq hg.symm]
      apply applyAll_of_forall_ne
      intro x hx
      rw [Item.update_guid, hg]
      intro hxe
      exact hnd.1 (hxe ▸ List.mem_map_of_mem Item.guid hx)
    · have hbB : b.guid ≠ B.guid := by
        intro he
        exact hnd.1 (he ▸ List.mem_map_of_mem Item.guid hBr)
      rw [applyAll_cons, applyOne_of_ne (fun he => hbB (he.symm ▸ hg.symm).symm)]
      exact ih hnd.2 hBr hg

theorem update_list_by_guids_cons (l : List Item) (b : Item) (rest : List Item) :
    update_list_by_guids l (b :: rest) = update_list_by_guids (updateOne l b) rest := rfl

theorem exists_guid_updateOne_of {l : List Item} {g : String} (b : Item)
    (h : ∃ it ∈ l, g = it.guid) : ∃ it ∈ updateOne l b, g = it.guid := by
  obtain ⟨it, hit, hq⟩ := h
  unfold updateOne; split
  · exact ⟨applyOne it b, List.mem_map_of_mem _ hit, by rw [applyOne_guid]; exact hq⟩
  · exact ⟨it, List.mem_append_left _ hit, hq⟩

theorem exists_guid_updateOne_self (l : List Item) (b : Item) :
    ∃ it ∈ updateOne l b, b.guid = it.guid := by
  unfold updateOne; split
  case isTrue h =>
    obtain ⟨it, hit, he⟩ := List.any_eq_true.mp h
    exact ⟨applyOne it b, List.mem_map_of_mem _ hit, by rw [applyOne_guid]; exact beq_iff_eq.mp he⟩
  case isFalse h =>
    exact ⟨b, List.mem_append_right _ (List.mem_singleton_self b), rfl⟩

theorem exists_guid_update_list_of {ns : List Item} : ∀ {l : List Item} {g : String},
    (∃ it ∈ l, g = it.guid) → ∃ it ∈ update_list_by_guids l ns, g = it.guid := by
  induction ns with
  | nil => intro l g h; exact h
  | cons b rest ih =>
    intro l g h
    rw [update_list_by_guids_cons]
    exact ih (exists_guid_updateOne_of b h)

/-- After a merge, every incoming guid occurs in the merged sequence. -/
theorem exists_guid_update_list_self {ns : List Item} : ∀ {l : List Item} {b : Item},
    b ∈ ns → ∃ it ∈ update_list_by_guids l ns, b.guid = it.guid := by
  induction ns with
  | nil => intro l b hb; cases hb
  | cons b0 rest ih =>
    intro l b hb
    rw [update_list_by_guids_cons]
    rcases List.mem_cons.mp hb with hbe | hbr
    · subst hbe
      exact exists_guid_update_list_of (exists_guid_updateOne_self l b)
    · exact ih hbr

theorem map_fixpoints {α : Type} {f : α → α} : ∀ {l : List α}, (∀ x ∈ l, f x = x) → l.map f = l := by
  intro l
  induction l with
  | nil => intro _; rfl
  | cons a rest ih =>
    intro h
    rw [List.map_cons, h a (List.mem_cons_self a rest),
      ih (fun x hx => h x (List.mem_cons_of_mem a hx))]

/-- When every incoming guid already occurs in the stored list, the merge
appends nothing: it is a pointwise overwrite of the stored items. -/
theorem update_list_saturated : ∀ (ns : List Item) (l : List Item),
    (∀ b ∈ ns, ∃ it ∈ l, b.guid = it.guid) →
    update_list_by_guids l ns = l.map (applyAll ns) := by
  intro ns
  induction ns with
  | nil =>
    intro l _
    exact (map_fixpoints (fun x _ => rfl)).symm
  | cons b rest ih =>
    intro l h
    have hany : l.any (fun item => b.guid == item.guid) = true := by
      rw [List.any_eq_true]
      obtain ⟨it, h1, h2⟩ := h b (List.mem_cons_self b rest)
      exact ⟨it, h1, beq_iff_eq.mpr h2⟩
    rw [update_list_by_guids_cons]
    have hone : updateOne l b = l.map (fun item => applyOne item b) := by
      unfold updateOne; rw [if_pos hany]
    rw [hone]
    rw [ih (l.map (fun item => applyOne item b)) ?_]
    · rw [List.map_map]
      rfl
    · intro b2 hb2
      obtain ⟨it, h1, h2⟩ := h b2 (List.mem_cons_of_mem b hb2)
      exact ⟨applyOne it b, List.mem_map_of_mem _ h1, by rw [applyOne_guid]; exact h2⟩

/-- Every element of a merged sequence is a fixed point of the cumulative
overwrite by the incoming list: re-applying the incoming items changes
nothing. -/
theorem applyAll_of_mem_update_list (l : List Item) : ∀ (ns : List Item),
    ∀ it ∈ update_list_by_guids l ns, applyAll ns it = it := by
  intro ns
  induction ns using List.reverseRecOn with
  | nil => intro it _; rfl
  | append_singleton ns b ih =>
    intro it hit
    have hit2 : it ∈ updateOne (update_list_by_guids l ns) b := by
      rw [update_list_by_guids, List.foldl_append] at hit
      exact hit
    have hgoal : applyAll (ns ++ [b]) it = applyOne (applyAll ns it) b := by
      rw [applyAll, List.foldl_append]; rfl
    rw [hgoal]
    unfold updateOne at hit2
    split at hit2
    case isTrue hany =>
      obtain ⟨x, hx, hxe⟩ := List.mem_map.mp hit2
      by_cases hg : b.guid = x.guid
      · have hit_eq : it = x.update b := by rw [← hxe]; exact (applyOne_of_eq hg).symm ▸ rfl
        have h1 : (applyAll ns it).guid = x.guid := by rw [applyAll_guid, hit_eq, Item.update_guid]
        have h2 : (applyAll ns it).link = x.link := by rw [applyAll_link, hit_eq, Item.update_link]
        have h3 : (applyAll ns it).author = x.author := by
          rw [applyAll_author, hit_eq, Item.update_author]
        rw [applyOne_of_eq (by rw [h1]; exact hg)]
        rw [Item.update_congr b h1 h2 h3]
        exact hit_eq.symm
      · have hit_eq : it = x := by rw [← hxe, applyOne_of_ne hg]
        subst hit_eq
        rw [ih it hx]
        exact applyOne_of_ne hg
    case isFalse hany =>
      rcases List.mem_append.mp hit2 with hmem | hmem
      · have h1 := ih it hmem
        rw [h1]
        apply applyOne_of_ne
        intro he
        rw [List.any_eq_true] at hany
        exact hany ⟨it, hmem, beq_iff_eq.mpr he⟩
      · have hit_eq : it = b := List.mem_singleton.mp hmem
        subst hit_eq
        rw [applyOne_of_eq (applyAll_guid ns it).symm]
        rw [Item.update_congr it (applyAll_guid ns it) (applyAll_link ns it)
          (applyAll_author ns it)]
        exact Item.update_eq_self rfl rfl rfl

/-- When the incoming guids are pairwise distinct, the merge is exactly: the
stored items overwritten in place, followed by the incoming items whose guid
matches no stored item, in incoming order. -/
theorem update_list_eq_map_append : ∀ (ns l : List Item),
    (ns.map Item.guid).Nodup →
    update_list_by_guids l ns =
      l.map (applyAll ns) ++
        ns.filter (fun b => !(l.any (fun it => b.guid == it.guid))) := by
  intro ns
  induction ns with
  | nil =>
    intro l _
    rw [List.filter_nil, List.append_nil]
    exact (map_fixpoints (fun x _ => rfl)).symm
  | cons b rest ih =>
    intro l hnd
    rw [List.map_cons, List.nodup_cons] at hnd
    obtain ⟨hb, hrest⟩ := hnd
    rw [update_list_by_guids_cons]
    by_cases hany : l.any (fun item => b.guid == item.guid) = true
    · have hone : updateOne l b = l.map (fun item => applyOne item b) := by
        unfold updateOne; rw [if_pos hany]
      rw [hone, ih _ hrest]
      rw [List.filter_cons_of_neg (by rw [hany]; simp)]
      congr 1
      · rw [List.map_map]; rfl
      · apply List.filter_congr
        intro r _
        have : (l.map (fun item => applyOne item b)).any (fun it => r.guid == it.guid)
            = l.any (fun it => r.guid == it.guid) := by
          rw [List.any_map]
          simp only [Function.comp_def, applyOne_guid]
        rw [this]
    · have hanyf : l.any (fun item => b.guid == item.guid) = false :=
        Bool.not_eq_true _ ▸ eq_false_of_ne_true hany
      have hlne : ∀ x ∈ l, b.guid ≠ x.guid := by
        intro x hx he
        rw [List.any_eq_true] at hany
        exact hany ⟨x, hx, beq_iff_eq.mpr he⟩
      have hone : updateOne l b = l ++ [b] := by
        unfold updateOne; rw [if_neg hany]
      rw [hone, ih _ hrest, List.map_append]
      have hb_fix : applyAll rest b = b := by
        apply applyAll_of_forall_ne
        intro x hx he
        exact hb (he ▸ List.mem_map_of_mem Item.guid hx)
      have hmap : l.map (applyAll rest) = l.map (applyAll (b :: rest)) := by
        apply List.map_congr_left
        intro x hx
        rw [applyAll_cons, applyOne_of_ne (hlne x hx)]
      have hfil : rest.filter (fun r => !((l ++ [b]).any (fun it => r.guid == it.guid)))
          = rest.filter (fun r => !(l.any (fun it => r.guid == it.guid))) := by
        apply List.filter_congr
        intro r hr
        have hrb : (r.guid == b.guid) = false := by
          rw [beq_eq_false_iff_ne]
          intro he
          exact hb (he ▸ List.mem_map_of_mem Item.guid hr)
        rw [List.any_append]
        simp only [List.any_cons, List.any_nil, hrb, Bool.or_false]
      rw [List.map_singleton, hb_fix, hmap, hfil]
      rw [List.filter_cons_of_pos (by simp only [hanyf, Bool.not_false])]
      rw [List.append_assoc, List.singleton_append]

/-! ### The comparator is a total preorder -/

theorem optTimeLt_asymm : ∀ {u v : Option Int},
    optTimeLt u v = true → optTimeLt v u = false := by
  intro u v
  cases u <;> cases v <;> simp [optTimeLt] <;> omega

theorem optTimeLt_cases : ∀ (u v w : Option Int),
    optTimeLt u w = true → optTimeLt u v = true ∨ optTimeLt v w = true := by
  intro u v w
  cases u <;> cases v <;> cases w <;> simp [optTimeLt] <;> omega

theorem optTimeLt_irrefl : ∀ (u : Option Int), optTimeLt u u = false := by
  intro u
  cases u <;> simp [optTimeLt]

/-- `itemLe a b` says exactly that the published time of `a` is not below
the published time of `b` (with an unparseable time below every parseable
one). -/
theorem itemLe_iff (a b : Item) :
    itemLe a b ↔
      optTimeLt a.get_published_timestamp b.get_published_timestamp = false := by
  by_cases hyx : optTimeLt b.get_published_timestamp a.get_published_timestamp = true
  · have hxy := optTimeLt_asymm hyx
    simp [itemLe, pubCompare, hyx, hxy]
  · have hyx2 := eq_false_of_ne_true hyx
    cases hxy : optTimeLt a.get_published_timestamp b.get_published_timestamp <;>
      simp [itemLe, pubCompare, hyx2, hxy]

instance : IsTotal Item itemLe := by
  constructor
  intro a b
  rw [itemLe_iff, itemLe_iff]
  cases h : optTimeLt a.get_published_timestamp b.get_published_timestamp
  · exact Or.inl rfl
  · exact Or.inr (optTimeLt_asymm h)

instance : IsTrans Item itemLe := by
  constructor
  intro a b c hab hbc
  rw [itemLe_iff] at hab hbc ⊢
  by_contra h
  have h2 : optTimeLt a.get_published_timestamp c.get_published_timestamp = true := by
    cases hx : optTimeLt a.get_published_timestamp c.get_published_timestamp
    · exact absurd hx h
    · rfl
  rcases optTimeLt_cases _ b.get_published_timestamp _ h2 with h3 | h3
  · rw [hab] at h3; cases h3
  · rw [hbc] at h3; cases h3

theorem itemLe_of_eq_time {a b : Item}
    (h : a.get_published_timestamp = b.get_published_timestamp) : itemLe a b := by
  rw [itemLe_iff, h]
  exact optTimeLt_irrefl _

/-! ### Frame lemmas about the synthesis steps -/

theorem fillAuthor_title (db : Db) (fo : FeedOptions) (it : Item) :
    (fillAuthor db fo it).title = it.title := by
  unfold fillAuthor; split <;> rfl

theorem fillAuthor_description (db : Db) (fo : FeedOptions) (it : Item) :
    (fillAuthor db fo it).description = it.description := by
  unfold fillAuthor; split <;> rfl

theorem fillContentEncoded_title (db : Db) (it : Item) :
    (fillContentEncoded db it).title = it.title := by
  unfold fillContentEncoded; split <;> rfl

theorem addMedia_title (db : Db) (it : Item) :
    (addMedia db it).title = it.title := by
  unfold addMedia
  split <;> first | rfl | (split <;> rfl)

/-! ### The claims -/

/-- Claim C1: for every stored sequence and incoming item `B` whose guid
equals the guid of the stored item at position `i` (incoming guids being
distinct within a feed, per the data-model invariant), after
`update_list_by_guids` the item at position `i` is the stored item
overwritten by `B`: it carries the content fields of `B` (title, plain
title, description, rich body, media, the three dates) while its guid and
its position are unchanged. -/
theorem update_list_guid_join (l ns : List Item) (i : Nat) (hi : i < l.length)
    (B : Item) (hB : B ∈ ns) (hnd : (ns.map Item.guid).Nodup)
    (hg : l[i].guid = B.guid) :
    (update_list_by_guids l ns)[i]? = some (l[i].update B) ∧
    (l[i].update B).guid = l[i].guid ∧
    (l[i].update B).title = B.title ∧
    (l[i].update B).plain_title = B.plain_title ∧
    (l[i].update B).description = B.description ∧
    (l[i].update B).content_encoded = B.content_encoded ∧
    (l[i].update B).media_content = B.media_content ∧
    (l[i].update B).pub_date = B.pub_date ∧
    (l[i].update B).create_date = B.create_date ∧
    (l[i].update B).update_date = B.update_date := by
  refine ⟨?_, rfl, rfl, rfl, rfl, rfl, rfl, rfl, rfl, rfl⟩
  rw [update_list_eq_map_append ns l hnd]
  rw [List.getElem?_append_left (by rw [List.length_map]; exact hi)]
  rw [List.getElem?_map, List.getElem?_eq_getElem hi]
  show some (applyAll ns l[i]) = some (l[i].update B)
  rw [applyAll_eq_update hnd hB hg]

theorem update_list_guid_join_witness :
    (([exIncoming].map Item.guid).Nodup ∧ exIncoming ∈ [exIncoming] ∧
      ([exStored] : List Item)[0].guid = exIncoming.guid) ∧
    (update_list_by_guids [exStored] [exIncoming])[0]? =
      some (([exStored] : List Item)[0].update exIncoming) ∧
    (([exStored] : List Item)[0].update exIncoming).guid = ([exStored] : List Item)[0].guid ∧
    (([exStored] : List Item)[0].update exIncoming).title = exIncoming.title ∧
    (([exStored] : List Item)[0].update exIncoming).plain_title = exIncoming.plain_title ∧
    (([exStored] : List Item)[0].update exIncoming).description = exIncoming.description ∧
    (([exStored] : List Item)[0].update exIncoming).content_encoded = exIncoming.content_encoded ∧
    (([exStored] : List Item)[0].update exIncoming).media_content = exIncoming.media_content ∧
    (([exStored] : List Item)[0].update exIncoming).pub_date = exIncoming.pub_date ∧
    (([exStored] : List Item)[0].update exIncoming).create_date = exIncoming.create_date ∧
    (([exStored] : List Item)[0].update exIncoming).update_date = exIncoming.update_date :=
  ⟨⟨by decide, by decide, by decide⟩,
    update_list_guid_join [exStored] [exIncoming] 0 (by decide) exIncoming (by decide)
      (by decide) (by decide)⟩

/-- Claim C2 (code bug): truncation with a positive `maxEntriesPublished`
that exceeds the number of available items makes `items[0..max]` panic
(modelled as `none`), where the claim promises the leading items are kept;
with enough items, a positive bound keeps exactly the first `max` items
after the sort, and a negative bound keeps everything. -/
theorem output_rss_truncation :
    Db.output_rss exDbOne = none ∧
    (Db.output_rss exDbFive).map (fun r => r.channel.item) =
      some [plainItem "a", plainItem "b"] ∧
    (Db.output_rss exDbAll).map (fun r => r.channel.item) =
      some [plainItem "a", plainItem "b", plainItem "c", plainItem "d", plainItem "e"] :=
  ⟨by decide, by decide, by decide⟩

/-- Claim C3: the sort of `Db::output_rss` permutes the flattened items into
an order where no earlier item has a published time below a later one (so
the order is by published time, descending, and every item whose time fails
to parse comes after every item with a parseable time), items with equal or
equally missing times keep their input relative order, and the concrete
[100, missing, 100] instance sorts to [first 100, second 100, missing]. -/
theorem sort_items_spec (l : List Item) :
    (sortItems l).Perm l ∧
    (sortItems l).Pairwise
      (fun a b => optTimeLt a.get_published_timestamp b.get_published_timestamp = false) ∧
    (∀ a b : Item, a.get_published_timestamp = b.get_published_timestamp →
      List.Sublist [a, b] l → List.Sublist [a, b] (sortItems l)) ∧
    sortItems [exTimedA, exMissing, exTimedC] = [exTimedA, exTimedC, exMissing] := by
  refine ⟨List.perm_insertionSort itemLe l, ?_, ?_, by decide⟩
  · exact (List.sorted_insertionSort itemLe l).imp (fun h => (itemLe_iff _ _).mp h)
  · intro a b ht hsub
    exact List.pair_sublist_insertionSort (itemLe_of_eq_time ht) hsub

theorem sort_items_spec_witness :
    exTimedA.get_published_timestamp = exTimedC.get_published_timestamp ∧
    List.Sublist [exTimedA, exTimedC] (sortItems [exTimedA, exMissing, exTimedC]) :=
  ⟨by decide,
    (sort_items_spec [exTimedA, exMissing, exTimedC]).2.2.1 exTimedA exTimedC (by decide)
      (List.Sublist.cons₂ _ (List.Sublist.cons _ (List.Sublist.cons₂ _ List.Sublist.slnil)))⟩

/-- Claim C4, counterexample: `Entry::into_item` leaves `create_date` empty
even though the entry's updated time reformats successfully, so not all
three timestamp fields receive the reformatted updated time. -/
theorem into_item_create_date_counterexample :
    (Entry.into_item exEntry).create_date ≠ Entry.get_updated_time_as_item_format exEntry ∧
    Entry.get_updated_time_as_item_format exEntry =
      some "Wed, 01 May 2024 10:00:00 +0000" :=
  ⟨by decide, by decide⟩

/-- Claim C4 as amended: `Entry::into_item` maps `guid = id`,
`title = plainTitle = entry title`, `link = link.href`, `body = summary`,
`richBody = content`, `author = entry author`, sets `published` and
`updated` to the entry's updated time reformatted into the schema-A
date-time text, and leaves `created` empty. -/
theorem into_item_fields (e : Entry) :
    (e.into_item).guid = e.id ∧
    (e.into_item).title = some e.title ∧
    (e.into_item).plain_title = some e.title ∧
    (e.into_item).link = some e.link.href ∧
    (e.into_item).description = some e.summary ∧
    (e.into_item).content_encoded = some e.content ∧
    (e.into_item).author = some e.author ∧
    (e.into_item).media_content = e.media_content ∧
    (e.into_item).imageurl = none ∧
    (e.into_item).pub_date = e.get_updated_time_as_item_format ∧
    (e.into_item).update_date = e.get_updated_time_as_item_format ∧
    (e.into_item).create_date = none :=
  ⟨rfl, rfl, rfl, rfl, rfl, rfl, rfl, rfl, rfl, rfl, rfl, rfl⟩

/-- Claim C5: merging the same incoming list twice equals merging it once;
the second pass finds every guid already present and overwrites each
matching item with content it already carries. -/
theorem update_list_idempotent (l ns : List Item) :
    update_list_by_guids (update_list_by_guids l ns) ns = update_list_by_guids l ns := by
  rw [update_list_saturated ns _ (fun b hb => exists_guid_update_list_self hb)]
  exact map_fixpoints (applyAll_of_mem_update_list l ns)

/-- Claim C6: with incoming guids distinct within the feed (the data-model
invariant), the merged sequence is the stored items, in place and in their
original positions, followed by exactly the incoming items whose guid
matches no stored item, in incoming order. -/
theorem update_list_append_new (l ns : List Item) (hnd : (ns.map Item.guid).Nodup) :
    update_list_by_guids l ns =
      l.map (applyAll ns) ++
        ns.filter (fun b => !(l.any (fun it => b.guid == it.guid))) :=
  update_list_eq_map_append ns l hnd

theorem update_list_append_new_witness :
    (([exIncoming, exFresh].map Item.guid).Nodup) ∧
    update_list_by_guids [exStored] [exIncoming, exFresh] =
      [exStored].map (applyAll [exIncoming, exFresh]) ++
        [exIncoming, exFresh].filter
          (fun b => !([exStored].any (fun it => b.guid == it.guid))) :=
  ⟨by decide, update_list_append_new [exStored] [exIncoming, exFresh] (by decide)⟩

/-- Claim C7, counterexample: the code splits the stripped description on
the space character, not on whitespace; on a description containing a tab
the synthesized title differs from the whitespace-splitting description. -/
theorem title_fill_whitespace_counterexample :
    (fillTitle exDbTab exItemTab).title = some "a\tb c..." ∧
    titleFromDescriptionSpec exDbTab exDescTab = "a b..." ∧
    (fillTitle exDbTab exItemTab).title ≠
      some (titleFromDescriptionSpec exDbTab exDescTab) :=
  ⟨by decide, by decide, by decide⟩

/-- Claim C7 as amended: for an item with no title, when the flag is set,
synthesis derives the title from the body by stripping markup tags,
unescaping the literal entity for an apostrophe, splitting on the space
character (so consecutive spaces contribute empty fragments, and other
whitespace does not split), and when there are more than
`descriptionTitleWordCount` fragments, joining the leading fragments,
trimming, and appending `titleEllipsis`; otherwise the full stripped
text. -/
theorem process_item_title_fill (db : Db) (feed_options : FeedOptions) (item : Item)
    (d : String)
    (hflag : db.include_description_as_title_if_none_given = true)
    (ht : item.title = none) (hd : item.description = some d) :
    (processItem db feed_options item).title =
      some (let d_text := strReplace (stripTags d) "&#39;" "\x27"
            let parts := strSplitOn d_text " "
            if parts.length > usizeOfI32 db.description_title_word_count then
              strTrim (strIntercalate " "
                  (parts.take (usizeOfI32 db.description_title_word_count))) ++
                db.title_ellipsis
            else d_text) := by
  have h1 : (fillAuthor db feed_options item).title = none := by
    rw [fillAuthor_title]; exact ht
  have h2 : (fillAuthor db feed_options item).description = some d := by
    rw [fillAuthor_description]; exact hd
  unfold processItem
  rw [addMedia_title, fillContentEncoded_title]
  unfold fillTitle
  rw [h1, h2, hflag]
  simp [titleFromDescription]

theorem process_item_title_fill_witness :
    (exDbHello.include_description_as_title_if_none_given = true ∧
      exItemHello.title = none ∧ exItemHello.description = some exDescHello) ∧
    (processItem exDbHello (foWith []) exItemHello).title =
      some "Hello world, this..." := by
  refine ⟨⟨by decide, by decide, by decide⟩, ?_⟩
  rw [process_item_title_fill exDbHello (foWith []) exItemHello exDescHello (by decide)
    (by decide) (by decide)]
  decide

/-- Claim C8: when the flag is set and the rich body is present, media
injection rewrites only `content_encoded`: it appends, after a `<br>` line
break, the space-joined HTML renderings of exactly those media assets whose
url is not a substring of the rich body, rendering image mime types as an
`img` tag with `src` and `alt`, video mime types as a `video` tag with
`src` and `type` wrapping the description, and anything else as the bare
description text. -/
theorem add_media_spec (db : Db) (item : Item) (body : String)
    (hflag : db.add_media_to_content_encoded = true)
    (hce : item.content_encoded = some body) :
    addMedia db item =
      { item with content_encoded := some (body ++ "<br>" ++
          strIntercalate " "
            (((item.media_content.getD []).filter
                (fun c => !(strContains body c.url))).map (fun c =>
              if strStartsWith c.mime_type "image" then
                "<img src=\"" ++ c.url ++ "\" alt=\"" ++ c.description.getD "" ++ "\" />"
              else if strStartsWith c.mime_type "video" then
                "<video src=\"" ++ c.url ++ "\" type=\"" ++ c.mime_type ++ "\" controls>" ++
                  c.description.getD "" ++ "</video>"
              else c.description.getD ""))) } := by
  have hmh : mediaHtmlFor body item.media_content =
      strIntercalate " "
        (((item.media_content.getD []).filter
            (fun c => !(strContains body c.url))).map (fun c =>
          if strStartsWith c.mime_type "image" then
            "<img src=\"" ++ c.url ++ "\" alt=\"" ++ c.description.getD "" ++ "\" />"
          else if strStartsWith c.mime_type "video" then
            "<video src=\"" ++ c.url ++ "\" type=\"" ++ c.mime_type ++ "\" controls>" ++
              c.description.getD "" ++ "</video>"
          else c.description.getD "")) := by
    have hfun : MediaContent.into_html = (fun c : MediaContent =>
        if strStartsWith c.mime_type "image" then
          "<img src=\"" ++ c.url ++ "\" alt=\"" ++ c.description.getD "" ++ "\" />"
        else if strStartsWith c.mime_type "video" then
          "<video src=\"" ++ c.url ++ "\" type=\"" ++ c.mime_type ++ "\" controls>" ++
            c.description.getD "" ++ "</video>"
        else c.description.getD "") := by
      funext c; rfl
    cases item.media_content with
    | none => rfl
    | some ml =>
      show strIntercalate " "
          ((ml.filter (fun c => !(strContains body c.url))).map MediaContent.into_html) = _
      rw [hfun]
      rfl
  unfold addMedia
  rw [hce, hflag]
  simp only [if_true]
  rw [hmh]

theorem add_media_spec_witness :
    (Db.new.add_media_to_content_encoded = true ∧
      exItemMedia.content_encoded = some "body http://x/i.png") ∧
    addMedia Db.new exItemMedia =
      { exItemMedia with
          content_encoded := some ("body http://x/i.png<br><video src=\"http://x/v.mp4\" type=\"video/mp4\" controls>vid</video> doc") } := by
  refine ⟨⟨by decide, by decide⟩, ?_⟩
  rw [add_media_spec Db.new exItemMedia "body http://x/i.png" (by decide) (by decide)]
  decide

/-- Claim C9, counterexample: the merge branch overwrites the stored
channel's title and link, but the per-source `title`/`link` of
`FeedOptions` (the values the author-fill step reads) keep their old
values, so they are not overwritten with the incoming feed's current
channel title and link. -/
theorem merge_source_rename_counterexample :
    (mergeFeedOptions exOldOptions exNewRss).title ≠ exNewRss.channel.title ∧
    (mergeFeedOptions exOldOptions exNewRss).link ≠ exNewRss.channel.link ∧
    (mergeFeedOptions exOldOptions exNewRss).title = "Old Source Title" ∧
    (mergeFeedOptions exOldOptions exNewRss).link = "old-source-link" :=
  ⟨by decide, by decide, by decide, by decide⟩

/-- Claim C9 as amended: a merge overwrites the stored channel title and
link with the incoming feed's current values and reconciles the items by
guid, while the per-source `title`/`link` used by the author-fill step keep
the values they received when the source was first created (where they were
copied from the incoming channel). -/
theorem merge_feed_options_fields (options : FeedOptions) (rss : Rss) :
    (mergeFeedOptions options rss).rss.channel.title = rss.channel.title ∧
    (mergeFeedOptions options rss).rss.channel.link = rss.channel.link ∧
    (mergeFeedOptions options rss).rss.channel.item =
      update_list_by_guids options.rss.channel.item rss.channel.item ∧
    (mergeFeedOptions options rss).title = options.title ∧
    (mergeFeedOptions options rss).link = options.link ∧
    (newFeedOptions rss).title = rss.channel.title ∧
    (newFeedOptions rss).link = rss.channel.link :=
  ⟨rfl, rfl, rfl, rfl, rfl, rfl, rfl⟩

/-- Claim C10: `Item::update` leaves `guid`, `link` and `author` of the
stored item unchanged and replaces exactly the content fields (title, plain
title, description, image url, rich body, media, and the three dates) with
the incoming item's values. -/
theorem item_update_frame (old new_item : Item) :
    (old.update new_item).guid = old.guid ∧
    (old.update new_item).link = old.link ∧
    (old.update new_item).author = old.author ∧
    (old.update new_item).title = new_item.title ∧
    (old.update new_item).plain_title = new_item.plain_title ∧
    (old.update new_item).description = new_item.description ∧
    (old.update new_item).imageurl = new_item.imageurl ∧
    (old.update new_item).content_encoded = new_item.content_encoded ∧
    (old.update new_item).media_content = new_item.media_content ∧
    (old.update new_item).pub_date = new_item.pub_date ∧
    (old.update new_item).create_date = new_item.create_date ∧
    (old.update new_item).update_date = new_item.update_date :=
  ⟨rfl, rfl, rfl, rfl, rfl, rfl, rfl, rfl, rfl, rfl, rfl, rfl⟩
